import Mathlib

/-
Verification of the LifeTracker habit-tracking core: a shallow embedding of
`lifetrack_pro/utils.py`, `lifetrack_pro/jobs.py` and `lifetrack_pro/db.py`.

Time model:
  * UTC instants are integer seconds since an arbitrary epoch (`Int`);
  * time-zone offsets are integer minutes east of UTC (`Int`);
  * local calendar dates are integer day numbers (`Int`);
  * the pytz database is modelled abstractly as a map from zone names to
    offset functions `Int → Int` (offset in minutes at a given UTC instant).

Python's `//` is floor division and `%` returns a value with the sign of the
divisor.  Every division and remainder in the modelled code has a positive
divisor, for which Lean's `Int` operations `/` (Euclidean) and `%` agree with
Python's floor semantics, so `/` and `%` are used directly.
-/

namespace LifeTrack

/-- A time zone, as pytz exposes it to this code: its UTC offset in minutes at
a given instant (seconds since the epoch). -/
abbrev Zone := Int → Int

/-- The UTC zone: offset 0 at every instant. -/
def utcZone : Zone := fun _ => 0

/-- From `utils.get_tz`: `pytz.timezone(tz_name)` with the `except` branch
returning `pytz.UTC`.  The database lookup is the abstract map `tzdb`; a name
not in the map is the case where `pytz.timezone` raises. -/
def get_tz (tzdb : String → Option Zone) (tz_name : String) : Zone :=
  (tzdb tz_name).getD utcZone

/-- From `utils.tz_offset_minutes`: the offset of the resolved zone evaluated
at `datetime.now()`, modelled by the explicit instant `now`. -/
def tz_offset_minutes (tzdb : String → Option Zone) (tz_name : String) (now : Int) : Int :=
  get_tz tzdb tz_name now

/-- From `utils.local_date_str`: `dt_utc.astimezone(tz).date()`, i.e. add the
zone's offset at the instant and truncate to a day number (floor division by
86400 seconds). -/
def local_date (tzdb : String → Option Zone) (tz_name : String) (dt_utc : Int) : Int :=
  (dt_utc + get_tz tzdb tz_name dt_utc * 60) / 86400

/-- Local day number of instant `t` under a fixed offset of `off` minutes:
`local_date` specialised to a zone with constant offset. -/
def local_date_of_offset (off t : Int) : Int :=
  (t + off * 60) / 86400

/-- From `utils.minutes_to_time`: `(hour, minute)` with
`hour = (m // 60) % 24` and `minute = m % 60`. -/
def minutes_to_time (minutes_after_midnight : Int) : Int × Int :=
  ((minutes_after_midnight / 60) % 24, minutes_after_midnight % 60)

/-- From `jobs.schedule_water_reminders` line 39:
`reminders = max(1, target_ml // max(1, cup_size_ml))`. -/
def reminders_count (target_ml cup_size_ml : Int) : Int :=
  max 1 (target_ml / max 1 cup_size_ml)

/-- From `jobs.schedule_water_reminders` lines 33–37: the active window in
minutes; `sleep <= wake` schedules until the end of the day. -/
def total_minutes (wake_minutes sleep_minutes : Int) : Int :=
  if sleep_minutes ≤ wake_minutes then 24 * 60 - wake_minutes
  else sleep_minutes - wake_minutes

/-- From `jobs.schedule_water_reminders` line 40:
`interval = max(1, total_minutes // reminders)`. -/
def interval_of (wake_minutes sleep_minutes target_ml cup_size_ml : Int) : Int :=
  max 1 (total_minutes wake_minutes sleep_minutes / reminders_count target_ml cup_size_ml)

/-- From `jobs.schedule_water_reminders` lines 42–47: the accumulation loop
`current = wake + interval; for _ in range(reminders): emit current % 1440;
current += interval`, returning the emitted minute values. -/
def trigger_loop (interval : Int) : Int → Nat → List Int
  | _, 0 => []
  | current, n + 1 => current % (24 * 60) :: trigger_loop interval (current + interval) n

/-- From `jobs.schedule_water_reminders`: the minute-of-day values of the
armed daily water triggers, in arming order. -/
def water_trigger_minutes (wake_minutes sleep_minutes target_ml cup_size_ml : Int) : List Int :=
  let reminders := reminders_count target_ml cup_size_ml
  let interval := interval_of wake_minutes sleep_minutes target_ml cup_size_ml
  trigger_loop interval (wake_minutes + interval) reminders.toNat

/-- Closed form of the trigger loop: the k-th emitted value is
`(start + interval * k) % 1440`. -/
theorem trigger_loop_closed_form (interval : Int) (n : Nat) :
    ∀ current : Int, trigger_loop interval current n =
      (List.range n).map (fun (k : Nat) => (current + interval * (k : Int)) % (24 * 60)) := by
  induction n with
  | zero => intro c; simp [trigger_loop]
  | succ m ih =>
    intro c
    rw [List.range_succ_eq_map, List.map_cons, List.map_map]
    simp only [trigger_loop, ih (c + interval)]
    congr 1
    · norm_num
    · refine List.map_congr_left (fun k _ => ?_)
      simp only [Function.comp_apply]
      congr 1
      push_cast
      ring

/-- Claim C4: whenever the stored sleep time is not strictly after the wake
time (`sleep_minutes ≤ wake_minutes`, both in 0..1439), the trigger
derivation uses the active window `1440 - wake_minutes`, running from wake
time to the end of the calendar day. -/
theorem C4_window_no_wrap (wake_minutes sleep_minutes : Int)
    (h0 : 0 ≤ wake_minutes) (h1 : wake_minutes ≤ 1439)
    (h2 : 0 ≤ sleep_minutes) (h3 : sleep_minutes ≤ wake_minutes) :
    total_minutes wake_minutes sleep_minutes = 1440 - wake_minutes := by
  simp only [total_minutes, if_pos h3]
  norm_num

/-- Witness for C4 at `wake = 420`, `sleep = 300`. -/
theorem C4_witness :
    (0 : Int) ≤ 420 ∧ total_minutes 420 300 = 1440 - 420 :=
  ⟨by decide, C4_window_no_wrap 420 300 (by decide) (by decide) (by decide) (by decide)⟩

/-- Claim C2: for `wake = 420`, `sleep = 1350`, `target = 2000`, `cup = 250`
the derivation computes window 930, reminder count 8, interval 116, and arms
exactly the eight clock times 08:56, 10:52, 12:48, 14:44, 16:40, 18:36,
20:32, 22:28. -/
theorem C2_concrete_schedule :
    total_minutes 420 1350 = 930 ∧
    reminders_count 2000 250 = 8 ∧
    interval_of 420 1350 2000 250 = 116 ∧
    (water_trigger_minutes 420 1350 2000 250).map minutes_to_time =
      [(8, 56), (10, 52), (12, 48), (14, 44), (16, 40), (18, 36), (20, 32), (22, 28)] := by
  decide

/-- Claim C1 (amended): for wake and sleep minutes in range with
`sleep > wake`, `target > 0`, `cup > 0`, one run of the derivation arms
exactly `max 1 (target / cup)` triggers and trigger `k` fires at minute
`(wake + interval * (k+1)) % 1440`; provided additionally that the reminder
count does not exceed the active window `sleep - wake`, every trigger minute
is strictly greater than `wake` and exceeds `sleep` by no more than
`interval` (in fact no trigger then exceeds `sleep` at all). -/
theorem C1_water_triggers (wake sleep target cup : Int)
    (hw0 : 0 ≤ wake) (hs1 : sleep ≤ 1439) (hws : wake < sleep)
    (ht : 0 < target) (hc : 0 < cup) :
    (water_trigger_minutes wake sleep target cup).length = (max 1 (target / cup)).toNat ∧
    water_trigger_minutes wake sleep target cup =
      (List.range (max 1 (target / cup)).toNat).map
        (fun (k : Nat) =>
          (wake + interval_of wake sleep target cup * ((k : Int) + 1)) % 1440) ∧
    (max 1 (target / cup) ≤ sleep - wake →
      ∀ t ∈ water_trigger_minutes wake sleep target cup,
        wake < t ∧ t ≤ sleep + interval_of wake sleep target cup) := by
  have hcup : max 1 cup = cup := max_eq_right (by omega)
  have hrdef : max 1 (target / cup) = reminders_count target cup := by
    unfold reminders_count
    rw [hcup]
  rw [hrdef]
  have hr1 : (1 : Int) ≤ reminders_count target cup := le_max_left _ _
  have hlist : water_trigger_minutes wake sleep target cup =
      (List.range (reminders_count target cup).toNat).map
        (fun (k : Nat) =>
          (wake + interval_of wake sleep target cup * ((k : Int) + 1)) % 1440) := by
    simp only [water_trigger_minutes]
    rw [trigger_loop_closed_form]
    refine List.map_congr_left (fun k _ => ?_)
    have h24 : (24 * 60 : Int) = 1440 := by norm_num
    rw [h24]
    congr 1
    ring
  refine ⟨by rw [hlist]; simp, hlist, ?_⟩
  intro hrW t htmem
  rw [hlist] at htmem
  obtain ⟨k, hk, rfl⟩ := List.mem_map.mp htmem
  have hkr : (k : Int) < reminders_count target cup :=
    Int.lt_toNat.mp (List.mem_range.mp hk)
  have hW : total_minutes wake sleep = sleep - wake := by
    unfold total_minutes
    rw [if_neg (by omega)]
  have hrpos : (0 : Int) < reminders_count target cup := by omega
  have hdiv1 : (1 : Int) ≤ (sleep - wake) / reminders_count target cup := by
    rw [Int.le_ediv_iff_mul_le hrpos, one_mul]
    exact hrW
  have hivdef : interval_of wake sleep target cup =
      (sleep - wake) / reminders_count target cup := by
    unfold interval_of
    rw [hW]
    exact max_eq_right hdiv1
  have hiv1 : (1 : Int) ≤ interval_of wake sleep target cup := by
    rw [hivdef]; exact hdiv1
  have hmul : interval_of wake sleep target cup * reminders_count target cup ≤
      sleep - wake := by
    rw [hivdef, mul_comm]
    have h1 := Int.ediv_add_emod (sleep - wake) (reminders_count target cup)
    have h2 := Int.emod_nonneg (sleep - wake)
      (by omega : reminders_count target cup ≠ 0)
    linarith
  have hbound : interval_of wake sleep target cup * ((k : Int) + 1) ≤ sleep - wake :=
    le_trans (mul_le_mul_of_nonneg_left (by omega) (by linarith)) hmul
  have hkpos : (0 : Int) < (k : Int) + 1 := by positivity
  have hXpos : (0 : Int) < interval_of wake sleep target cup * ((k : Int) + 1) :=
    mul_pos (by linarith) hkpos
  have hx0 : 0 ≤ wake + interval_of wake sleep target cup * ((k : Int) + 1) := by
    linarith
  have hx1440 : wake + interval_of wake sleep target cup * ((k : Int) + 1) < 1440 := by
    linarith
  rw [Int.emod_eq_of_lt hx0 hx1440]
  constructor
  · linarith
  · linarith

/-- Claim C1 counterexample: at `wake = 0`, `sleep = 1` (so `sleep > wake`),
`target = 3`, `cup = 1` the derivation arms the three trigger minutes
`[1, 2, 3]` with `interval = 1`, and the last trigger minute `3` exceeds
`sleep = 1` by `2 > interval`, so the claimed drift bound fails. -/
theorem C1_counterexample :
    water_trigger_minutes 0 1 3 1 = [1, 2, 3] ∧
    interval_of 0 1 3 1 = 1 ∧
    ¬ (∀ t ∈ water_trigger_minutes 0 1 3 1, t ≤ 1 + interval_of 0 1 3 1) := by
  decide

/-- Witness for C1 at `wake = 420`, `sleep = 1350`, `target = 2000`,
`cup = 250`: eight triggers, and the trigger minute 536 lies strictly inside
the claimed window. -/
theorem C1_witness :
    ((0 : Int) ≤ 420 ∧ (1350 : Int) ≤ 1439 ∧ (420 : Int) < 1350 ∧
      (0 : Int) < 2000 ∧ (0 : Int) < 250) ∧
    (water_trigger_minutes 420 1350 2000 250).length = (max 1 ((2000 : Int) / 250)).toNat ∧
    (420 < (536 : Int) ∧ (536 : Int) ≤ 1350 + interval_of 420 1350 2000 250) :=
  ⟨⟨by decide, by decide, by decide, by decide, by decide⟩,
   (C1_water_triggers 420 1350 2000 250 (by decide) (by decide) (by decide)
      (by decide) (by decide)).1,
   (C1_water_triggers 420 1350 2000 250 (by decide) (by decide) (by decide)
      (by decide) (by decide)).2.2 (by decide) 536 (by decide)⟩

/-- Claim C10: the divisor in the reminder-count computation is
`max 1 cup_size_ml`, which is always positive, so the division is defined for
every integer cup size; for `cup_size_ml ≤ 0` the derivation behaves as if
the cup size were 1, and for `cup_size_ml > 0` the guard is a no-op. -/
theorem C10_guarded_division (target cup : Int) :
    reminders_count target cup = max 1 (target / max 1 cup) ∧
    (0 : Int) < max 1 cup ∧
    (cup ≤ 0 → reminders_count target cup = reminders_count target 1) ∧
    (0 < cup → reminders_count target cup = max 1 (target / cup)) := by
  refine ⟨rfl, lt_of_lt_of_le Int.zero_lt_one (le_max_left 1 cup), ?_, ?_⟩
  · intro h
    unfold reminders_count
    rw [max_eq_left (by omega : cup ≤ 1)]
    norm_num
  · intro h
    unfold reminders_count
    rw [max_eq_right (by omega : (1 : Int) ≤ cup)]

/-- Witness for C10 at `cup = -3` (guarded branch) and `cup = 250`
(guard a no-op). -/
theorem C10_witness :
    ((-3 : Int) ≤ 0 ∧ reminders_count 2000 (-3) = reminders_count 2000 1) ∧
    ((0 : Int) < 250 ∧ reminders_count 2000 250 = max 1 ((2000 : Int) / 250)) :=
  ⟨⟨by decide, (C10_guarded_division 2000 (-3)).2.2.1 (by decide)⟩,
   ⟨by decide, (C10_guarded_division 2000 250).2.2.2 (by decide)⟩⟩

/-- A row of the `water_logs` table (`db.py` schema): note the schema stores
no local date for water events, only the UTC instant. -/
structure WaterLog where
  user_id : Int
  amount_ml : Int
  ts_utc : Int
deriving DecidableEq

/-- From `Database.add_water`: appends one row to `water_logs`. -/
def add_water (logs : List WaterLog) (user_id amount_ml : Int) (ts_utc : Int) :
    List WaterLog :=
  logs ++ [⟨user_id, amount_ml, ts_utc⟩]

/-- From `Database.get_water_total_for_date`: from the local date and a
time-zone offset in minutes, compute `from_utc = midnight - offset`,
`to_utc = from_utc + 1 day`, and sum `amount_ml` over the user's rows with
`from_utc ≤ ts_utc < to_utc`. -/
def get_water_total_for_date (logs : List WaterLog) (user_id date_local tz_off : Int) :
    Int :=
  ((logs.filter (fun r =>
      decide (r.user_id = user_id ∧
        date_local * 86400 - tz_off * 60 ≤ r.ts_utc ∧
        r.ts_utc < date_local * 86400 - tz_off * 60 + 86400))).map
    (fun r => r.amount_ml)).sum

/-- The composition the handlers actually run (`handlers.py` lines 229–230 and
analogues): `get_water_total_for_date` applied to the offset
`tz_offset_minutes(tz)` taken at the current instant `now`. -/
def water_total_for_local_date (tzdb : String → Option Zone) (now : Int)
    (logs : List WaterLog) (user_id date_local : Int) (tz_name : String) : Int :=
  get_water_total_for_date logs user_id date_local (tz_offset_minutes tzdb tz_name now)

/-- Modelled from the spec, for comparison with the code: the water total
computed with the zone's offset evaluated at that local date's midnight
(`fromUtc = localDate midnight − offsetMinutes(tzName, localDate midnight)`),
rather than at the instant of the query. -/
def water_total_spec_midnight_offset (tzdb : String → Option Zone)
    (logs : List WaterLog) (user_id date_local : Int) (tz_name : String) : Int :=
  get_water_total_for_date logs user_id date_local
    (get_tz tzdb tz_name (date_local * 86400))

/-- A zone with a DST-style jump: offset 0 before the epoch, 60 minutes from
the epoch on. -/
def zoneJump : Zone := fun t => if t < 0 then 0 else 60

/-- A time-zone database resolving every name to `zoneJump`. -/
def tzdbJump : String → Option Zone := fun _ => some zoneJump

/-- Claim C3 counterexample: under `zoneJump`, for local date 0 and an event
at instant -1800, a query issued at instant -10 uses offset 0 (the offset at
the query instant) and totals 0, while the claimed bucketing with the offset
at the local date's midnight (offset 60) totals 250: the code does not use
the offset at the local date's midnight. -/
theorem C3_counterexample :
    water_total_for_local_date tzdbJump (-10) [⟨1, 250, -1800⟩] 1 0 "Europe/Dublin" = 0 ∧
    water_total_spec_midnight_offset tzdbJump [⟨1, 250, -1800⟩] 1 0 "Europe/Dublin" = 250 := by
  constructor <;> rfl

/-- Claim C3 (amended): the water total for a local date is the sum of
`amount_ml` over exactly those events whose instant lies in
`[midnight - off, midnight - off + 24h)`, where `off` is the zone's offset at
the instant the query is made (`datetime.now()`), not at the local date's
midnight; stored rows carry no local date, so none is consulted. -/
theorem C3_water_bucketing (tzdb : String → Option Zone) (now : Int)
    (logs : List WaterLog) (user_id date_local : Int) (tz_name : String)
    (e : WaterLog) (he : e ∈ logs) :
    water_total_for_local_date tzdb now logs user_id date_local tz_name =
      ((logs.filter (fun r =>
          decide (r.user_id = user_id ∧
            date_local * 86400 - tz_offset_minutes tzdb tz_name now * 60 ≤ r.ts_utc ∧
            r.ts_utc < date_local * 86400 - tz_offset_minutes tzdb tz_name now * 60
              + 86400))).map (fun r => r.amount_ml)).sum ∧
    (e ∈ logs.filter (fun r =>
        decide (r.user_id = user_id ∧
          date_local * 86400 - tz_offset_minutes tzdb tz_name now * 60 ≤ r.ts_utc ∧
          r.ts_utc < date_local * 86400 - tz_offset_minutes tzdb tz_name now * 60
            + 86400)) ↔
      (e.user_id = user_id ∧
        date_local * 86400 - tz_offset_minutes tzdb tz_name now * 60 ≤ e.ts_utc ∧
        e.ts_utc < date_local * 86400 - tz_offset_minutes tzdb tz_name now * 60
          + 86400)) := by
  constructor
  · rfl
  · rw [List.mem_filter]
    simp [he]

/-- Witness for C3 (amended) on a one-event store queried at `now = 0` under
the all-`zoneJump` database. -/
theorem C3_witness :
    (⟨1, 250, 100⟩ : WaterLog) ∈ [(⟨1, 250, 100⟩ : WaterLog)] ∧
    water_total_for_local_date tzdbJump 0 [⟨1, 250, 100⟩] 1 0 "UTC" =
      ((([(⟨1, 250, 100⟩ : WaterLog)]).filter (fun r =>
          decide (r.user_id = 1 ∧
            0 * 86400 - tz_offset_minutes tzdbJump "UTC" 0 * 60 ≤ r.ts_utc ∧
            r.ts_utc < 0 * 86400 - tz_offset_minutes tzdbJump "UTC" 0 * 60
              + 86400))).map (fun r => r.amount_ml)).sum :=
  ⟨by decide,
   (C3_water_bucketing tzdbJump 0 [⟨1, 250, 100⟩] 1 0 "UTC" ⟨1, 250, 100⟩
      (by decide)).1⟩

/-- Claim C5: appending a 250 ml water event at instant `T` and then querying
the total for the local date containing `T`, under the same fixed time-zone
offset, returns at least 250; the hypothesis that stored amounts are
non-negative is the data model's `amountMl > 0` invariant. -/
theorem C5_roundtrip (logs : List WaterLog) (u T off : Int)
    (hnn : ∀ r ∈ logs, 0 ≤ r.amount_ml) :
    250 ≤ get_water_total_for_date (add_water logs u 250 T) u
      (local_date_of_offset off T) off := by
  have hfloor := Int.ediv_add_emod (T + off * 60) 86400
  have hm0 := Int.emod_nonneg (T + off * 60) (by norm_num : (86400 : Int) ≠ 0)
  have hm1 := Int.emod_lt_of_pos (T + off * 60) (by norm_num : (0 : Int) < 86400)
  have hin : local_date_of_offset off T * 86400 - off * 60 ≤ T ∧
      T < local_date_of_offset off T * 86400 - off * 60 + 86400 := by
    unfold local_date_of_offset
    omega
  unfold get_water_total_for_date add_water
  rw [List.filter_append]
  have hnew : ([⟨u, 250, T⟩] : List WaterLog).filter (fun r =>
      decide (r.user_id = u ∧
        local_date_of_offset off T * 86400 - off * 60 ≤ r.ts_utc ∧
        r.ts_utc < local_date_of_offset off T * 86400 - off * 60 + 86400)) =
      [⟨u, 250, T⟩] := by
    rw [List.filter_cons, if_pos (decide_eq_true ⟨rfl, hin.1, hin.2⟩), List.filter_nil]
  rw [hnew, List.map_append, List.sum_append]
  have hrest : 0 ≤ ((logs.filter (fun r =>
      decide (r.user_id = u ∧
        local_date_of_offset off T * 86400 - off * 60 ≤ r.ts_utc ∧
        r.ts_utc < local_date_of_offset off T * 86400 - off * 60 + 86400))).map
        (fun r => r.amount_ml)).sum := by
    refine List.sum_nonneg (fun x hx => ?_)
    obtain ⟨r, hr, rfl⟩ := List.mem_map.mp hx
    exact hnn r (List.mem_filter.mp hr).1
  simp only [List.map_cons, List.map_nil, List.sum_cons, List.sum_nil]
  omega

/-- Witness for C5 on the empty store at `T = 0`, `off = 0`. -/
theorem C5_witness :
    250 ≤ get_water_total_for_date (add_water [] 7 250 0) 7
      (local_date_of_offset 0 0) 0 :=
  C5_roundtrip [] 7 0 0 (fun r hr => absurd hr (List.not_mem_nil r))

/-- Claim C9: time-zone resolution is a total function (it is defined for
every string, modelling the `try`/`except` fallback in `utils.get_tz`), and
a name absent from the zone database resolves to UTC: the offset is 0 and
local-date conversion at any instant behaves as for UTC. -/
theorem C9_unknown_tz (tzdb : String → Option Zone) (tz_name : String)
    (now t : Int) (h : tzdb tz_name = none) :
    get_tz tzdb tz_name = utcZone ∧
    tz_offset_minutes tzdb tz_name now = 0 ∧
    local_date tzdb tz_name t = t / 86400 := by
  have hg : get_tz tzdb tz_name = utcZone := by
    unfold get_tz
    rw [h]
    rfl
  refine ⟨hg, ?_, ?_⟩
  · unfold tz_offset_minutes
    rw [hg]
    rfl
  · unfold local_date
    rw [hg]
    simp [utcZone]

/-- Witness for C9 on the empty zone database at an arbitrary name. -/
theorem C9_witness :
    ((fun _ => none : String → Option Zone) "Mars/Olympus" = none) ∧
    tz_offset_minutes (fun _ => none) "Mars/Olympus" 12345 = 0 ∧
    local_date (fun _ => none) "Mars/Olympus" 100000 = 100000 / 86400 :=
  ⟨rfl,
   (C9_unknown_tz (fun _ => none) "Mars/Olympus" 12345 100000 rfl).2.1,
   (C9_unknown_tz (fun _ => none) "Mars/Olympus" 12345 100000 rfl).2.2⟩

/-- A row of the `exercise_logs` table (`db.py` schema), which carries a
`UNIQUE(user_id, date)` constraint; `retention_logs` is structurally
identical. -/
structure ExerciseLog where
  user_id : Int
  date : Int
  did_exercise : Bool
  ts_utc : Int
deriving DecidableEq

/-- The `(user_id, date)` key test used by the unique constraint. -/
def exercise_key (u d : Int) (r : ExerciseLog) : Bool :=
  decide (r.user_id = u ∧ r.date = d)

/-- From `Database.set_exercise`: `INSERT ... ON CONFLICT(user_id, date) DO
UPDATE SET did_exercise, ts_utc` — if a row with the key exists it is updated
in place, otherwise a new row is appended. -/
def set_exercise (logs : List ExerciseLog) (u d : Int) (v : Bool) (ts : Int) :
    List ExerciseLog :=
  if logs.any (exercise_key u d) then
    logs.map (fun r => if exercise_key u d r then ⟨u, d, v, ts⟩ else r)
  else
    logs ++ [⟨u, d, v, ts⟩]

/-- The store invariant enforced by `UNIQUE(user_id, date)`: at most one row
per key. -/
def AtMostOnePerKey (logs : List ExerciseLog) : Prop :=
  ∀ u d : Int, (logs.filter (exercise_key u d)).length ≤ 1

/-- Updating in place rewrites exactly the rows with the key. -/
theorem filter_map_upsert (u d : Int) (v : Bool) (ts : Int) :
    ∀ logs : List ExerciseLog,
      (logs.map (fun r => if exercise_key u d r then ⟨u, d, v, ts⟩ else r)).filter
          (exercise_key u d) =
        (logs.filter (exercise_key u d)).map (fun _ => (⟨u, d, v, ts⟩ : ExerciseLog))
  | [] => rfl
  | r :: logs => by
    by_cases hr : exercise_key u d r
    · have hkey : exercise_key u d (⟨u, d, v, ts⟩ : ExerciseLog) = true :=
        decide_eq_true ⟨rfl, rfl⟩
      simp [hr, hkey, filter_map_upsert u d v ts logs]
    · have hrb : exercise_key u d r = false := Bool.eq_false_iff.mpr hr
      simp [hrb, filter_map_upsert u d v ts logs]

/-- Rows with a different key are untouched by the in-place update. -/
theorem filter_map_other (u d a b : Int) (v : Bool) (ts : Int)
    (hne : ¬(u = a ∧ d = b)) :
    ∀ logs : List ExerciseLog,
      (logs.map (fun r => if exercise_key u d r then ⟨u, d, v, ts⟩ else r)).filter
          (exercise_key a b) =
        logs.filter (exercise_key a b)
  | [] => rfl
  | r :: logs => by
    by_cases hr : exercise_key u d r
    · have hrkey : r.user_id = u ∧ r.date = d := of_decide_eq_true hr
      have h1 : exercise_key a b (⟨u, d, v, ts⟩ : ExerciseLog) = false := by
        unfold exercise_key
        exact decide_eq_false hne
      have h2 : exercise_key a b r = false := by
        unfold exercise_key
        refine decide_eq_false (fun hab => hne ?_)
        rw [← hrkey.1, ← hrkey.2]
        exact hab
      simp [hr, h1, h2, filter_map_other u d a b v ts hne logs]
    · have hrb : exercise_key u d r = false := Bool.eq_false_iff.mpr hr
      simp only [List.map_cons, hrb, Bool.false_eq_true, if_false]
      rw [List.filter_cons, List.filter_cons,
        filter_map_other u d a b v ts hne logs]

/-- An upsert leaves exactly one row with its key, carrying the new value and
timestamp. -/
theorem set_exercise_filter_key (logs : List ExerciseLog) (u d : Int) (v : Bool)
    (ts : Int) (hlen : (logs.filter (exercise_key u d)).length ≤ 1) :
    (set_exercise logs u d v ts).filter (exercise_key u d) = [⟨u, d, v, ts⟩] := by
  unfold set_exercise
  by_cases hany : logs.any (exercise_key u d)
  · rw [if_pos hany, filter_map_upsert]
    obtain ⟨r0, hr0mem, hr0⟩ := List.any_eq_true.mp hany
    have hne : logs.filter (exercise_key u d) ≠ [] := by
      intro hnil
      have : r0 ∈ logs.filter (exercise_key u d) := List.mem_filter.mpr ⟨hr0mem, hr0⟩
      rw [hnil] at this
      exact List.not_mem_nil r0 this
    have hlen1 : (logs.filter (exercise_key u d)).length = 1 := by
      have := List.length_pos.mpr hne
      omega
    obtain ⟨a, ha⟩ := List.length_eq_one.mp hlen1
    rw [ha]
    rfl
  · rw [if_neg hany, List.filter_append]
    have hfil : logs.filter (exercise_key u d) = [] := by
      rw [List.filter_eq_nil_iff]
      intro r hr hkey
      exact hany (List.any_eq_true.mpr ⟨r, hr, hkey⟩)
    rw [hfil]
    simp [exercise_key]

/-- An upsert does not change the rows of any other key. -/
theorem set_exercise_filter_other (logs : List ExerciseLog) (u d : Int) (v : Bool)
    (ts a b : Int) (hne : ¬(u = a ∧ d = b)) :
    (set_exercise logs u d v ts).filter (exercise_key a b) =
      logs.filter (exercise_key a b) := by
  unfold set_exercise
  by_cases hany : logs.any (exercise_key u d)
  · rw [if_pos hany]
    exact filter_map_other u d a b v ts hne logs
  · rw [if_neg hany, List.filter_append]
    have h1 : exercise_key a b (⟨u, d, v, ts⟩ : ExerciseLog) = false := by
      unfold exercise_key
      exact decide_eq_false hne
    simp [h1]

/-- Claim C6: on a store satisfying the unique-key invariant, an exercise
upsert preserves the invariant, leaves exactly one row for the written key
holding the new value and timestamp, and writing `true` then `false` for the
same date leaves exactly one row for that date with value `false`. -/
theorem C6_boolean_upsert (logs : List ExerciseLog) (u d : Int) (v : Bool)
    (ts t1 t2 : Int) (hinv : AtMostOnePerKey logs) :
    AtMostOnePerKey (set_exercise logs u d v ts) ∧
    (set_exercise logs u d v ts).filter (exercise_key u d) = [⟨u, d, v, ts⟩] ∧
    (set_exercise (set_exercise logs u d true t1) u d false t2).filter
        (exercise_key u d) = [⟨u, d, false, t2⟩] := by
  have hpres : ∀ (v' : Bool) (ts' : Int),
      AtMostOnePerKey (set_exercise logs u d v' ts') := by
    intro v' ts' a b
    by_cases hab : u = a ∧ d = b
    · obtain ⟨rfl, rfl⟩ := hab
      rw [set_exercise_filter_key logs u d v' ts' (hinv u d)]
      simp
    · rw [set_exercise_filter_other logs u d v' ts' a b hab]
      exact hinv a b
  refine ⟨hpres v ts, set_exercise_filter_key logs u d v ts (hinv u d), ?_⟩
  exact set_exercise_filter_key _ u d false t2 (hpres true t1 u d)

/-- Witness for C6: on the empty store, write `true` at date 5, then `false`;
one row remains, with value `false`. -/
theorem C6_witness :
    (set_exercise (set_exercise [] 1 5 true 100) 1 5 false 200).filter
        (exercise_key 1 5) = [⟨1, 5, false, 200⟩] :=
  (C6_boolean_upsert [] 1 5 true 0 100 200
    (fun u d => by simp [List.filter_nil])).2.2

/-- From `Database.compute_boolean_streak`: the per-day lookup
`SELECT did_exercise FROM exercise_logs WHERE user_id=? AND date=?`
(first matching row). -/
def exercise_lookup (logs : List ExerciseLog) (u d : Int) : Option Bool :=
  (logs.find? (exercise_key u d)).map (fun r => r.did_exercise)

/-- From `Database.compute_boolean_streak`: walk backward one day at a time
from `d`, counting while the looked-up value equals `expect`.  The source is
an unbounded `while True` loop that terminates because the store is finite;
`fuel` is an explicit bound on the number of iterations modelling that
termination argument. -/
def compute_boolean_streak (logs : List ExerciseLog) (u : Int) (expect : Bool) :
    Nat → Int → Nat
  | 0, _ => 0
  | fuel + 1, d =>
    if exercise_lookup logs u d = some expect then
      compute_boolean_streak logs u expect fuel (d - 1) + 1
    else
      0

/-- Claim C7: if the `n` consecutive dates `d, d-1, ..., d-(n-1)` all hold a
record with value `expect` and date `d-n` does not (missing or mismatched),
the backward walk returns exactly `n`, for any fuel exceeding `n`. -/
theorem C7_streak (logs : List ExerciseLog) (u : Int) (expect : Bool) (d : Int)
    (n fuel : Nat)
    (h1 : ∀ k : Nat, k < n → exercise_lookup logs u (d - k) = some expect)
    (h2 : exercise_lookup logs u (d - n) ≠ some expect)
    (hf : n < fuel) :
    compute_boolean_streak logs u expect fuel d = n := by
  induction n generalizing d fuel with
  | zero =>
    obtain ⟨f, rfl⟩ : ∃ f, fuel = f + 1 := ⟨fuel - 1, by omega⟩
    unfold compute_boolean_streak
    rw [if_neg (by simpa using h2)]
  | succ m ih =>
    obtain ⟨f, rfl⟩ : ∃ f, fuel = f + 1 := ⟨fuel - 1, by omega⟩
    unfold compute_boolean_streak
    rw [if_pos (by simpa using h1 0 (Nat.succ_pos m))]
    have hrec : compute_boolean_streak logs u expect f (d - 1) = m := by
      refine ih (d - 1) f (fun k hk => ?_) ?_ (by omega)
      · have := h1 (k + 1) (by omega)
        have harg : d - ((k : Int) + 1) = d - 1 - k := by ring
        rw [← harg]
        simpa using this
      · have harg : d - 1 - (m : Int) = d - ((m : Int) + 1) := by ring
        rw [harg]
        simpa using h2
    omega

/-- Witness for C7: exercise recorded `true` on days 10, 9, 8 of a concrete
store, nothing on day 7: the streak from day 10 is 3. -/
theorem C7_witness :
    (∀ k : Nat, k < 3 →
      exercise_lookup [⟨1, 10, true, 0⟩, ⟨1, 9, true, 0⟩, ⟨1, 8, true, 0⟩] 1
        (10 - k) = some true) ∧
    compute_boolean_streak [⟨1, 10, true, 0⟩, ⟨1, 9, true, 0⟩, ⟨1, 8, true, 0⟩]
      1 true 4 10 = 3 :=
  ⟨by decide,
   C7_streak [⟨1, 10, true, 0⟩, ⟨1, 9, true, 0⟩, ⟨1, 8, true, 0⟩] 1 true 10 3 4
     (by decide) (by decide) (by decide)⟩

/-- A row of the `sleep_logs` table (`db.py` schema): start, wake and
duration are all nullable. -/
structure SleepLog where
  user_id : Int
  date : Int
  sleep_start_utc : Option Int
  wake_utc : Option Int
  duration_minutes : Option Int
deriving DecidableEq

/-- From `Database.log_sleep_start`: appends a row with only the start
instant set. -/
def log_sleep_start (logs : List SleepLog) (u d t : Int) : List SleepLog :=
  logs ++ [⟨u, d, some t, none, none⟩]

/-- From `Database.log_wake` lines 195–198: index (rows are in id order) of
the most recent row of the user with `wake_utc IS NULL`
(`ORDER BY id DESC LIMIT 1`). -/
def latest_open_idx (u : Int) : List SleepLog → Option Nat
  | [] => none
  | r :: rs =>
    match latest_open_idx u rs with
    | some i => some (i + 1)
    | none => if r.user_id = u ∧ r.wake_utc = none then some 0 else none

/-- From `Database.log_wake` lines 201–212: completing an open row — set the
wake instant, the duration `max 0 ((wake - start) // 60)` (with the
unparseable-start fallback `start := wake`, giving duration 0), and reassign
the row's date to the wake-side date. -/
def wake_update (d t : Int) (r : SleepLog) : SleepLog :=
  { r with
    wake_utc := some t
    duration_minutes := some (max 0 ((t - r.sleep_start_utc.getD t) / 60))
    date := d }

/-- From `Database.log_wake`: if an open row exists, complete the most recent
one; otherwise append a row holding only the wake instant, with
`duration_minutes` unset. -/
def log_wake (logs : List SleepLog) (u d t : Int) : List SleepLog :=
  match latest_open_idx u logs with
  | some i => logs.set i (wake_update d t (logs.getD i ⟨0, 0, none, none, none⟩))
  | none => logs ++ [⟨u, d, none, some t, none⟩]

/-- Appending an open row for the user makes it the most recent open row. -/
theorem latest_open_idx_append_open (u : Int) (r : SleepLog)
    (hr : r.user_id = u ∧ r.wake_utc = none) :
    ∀ logs : List SleepLog, latest_open_idx u (logs ++ [r]) = some logs.length
  | [] => by simp [latest_open_idx, hr]
  | x :: logs => by
    have hrec := latest_open_idx_append_open u r hr logs
    simp only [List.cons_append, latest_open_idx, List.append_eq, hrec,
      List.length_cons]

/-- When the user has no open row, the search finds none. -/
theorem latest_open_idx_none (u : Int) :
    ∀ logs : List SleepLog,
      (∀ r ∈ logs, r.user_id = u → r.wake_utc ≠ none) →
      latest_open_idx u logs = none
  | [], _ => rfl
  | r :: logs, h => by
    have hrec : latest_open_idx u logs = none :=
      latest_open_idx_none u logs (fun x hx => h x (List.mem_cons_of_mem r hx))
    simp only [latest_open_idx, hrec]
    rw [if_neg]
    intro hro
    exact h r (List.mem_cons_self r logs) hro.1 hro.2

/-- Reading the appended element of a list. -/
theorem getD_append_length (dflt : SleepLog) :
    ∀ (logs : List SleepLog) (a : SleepLog),
      (logs ++ [a]).getD logs.length dflt = a
  | [], _ => rfl
  | x :: logs, a => by
    simp only [List.cons_append, List.length_cons, List.getD_cons_succ]
    exact getD_append_length dflt logs a

/-- Setting the appended element of a list rewrites just that element. -/
theorem set_append_length (b : SleepLog) :
    ∀ (logs : List SleepLog) (a : SleepLog),
      (logs ++ [a]).set logs.length b = logs ++ [b]
  | [], a => rfl
  | x :: logs, a => by
    simp only [List.cons_append, List.length_cons, List.set_cons_succ,
      set_append_length b logs a]

/-- Claim C8: a sleep start at `T1` followed by a wake at `T2 > T1` with no
intervening start completes the started row into one record with
`duration_minutes = max 0 ((T2 - T1) / 60)` minutes (the date moving to the
wake-side date), and a wake with no open row appends a record holding only
the wake instant, `duration_minutes` unset. -/
theorem C8_sleep_pairing (logs : List SleepLog) (u d1 d2 T1 T2 : Int)
    (h12 : T1 < T2) :
    log_wake (log_sleep_start logs u d1 T1) u d2 T2 =
      logs ++ [⟨u, d2, some T1, some T2, some (max 0 ((T2 - T1) / 60))⟩] ∧
    ((∀ r ∈ logs, r.user_id = u → r.wake_utc ≠ none) →
      log_wake logs u d2 T2 = logs ++ [⟨u, d2, none, some T2, none⟩]) := by
  constructor
  · unfold log_wake log_sleep_start
    rw [latest_open_idx_append_open u ⟨u, d1, some T1, none, none⟩ ⟨rfl, rfl⟩ logs]
    dsimp only
    rw [getD_append_length, set_append_length]
    rfl
  · intro hopen
    unfold log_wake
    rw [latest_open_idx_none u logs hopen]

/-- Witness for C8: starting at instant 0 and waking at instant 3900 on an
empty store yields one completed interval of 65 minutes; a wake on a store
whose only row is already completed appends a wake-only row. -/
theorem C8_witness :
    ((0 : Int) < 3900 ∧
      log_wake (log_sleep_start [] 1 20 0) 1 21 3900 =
        [⟨1, 21, some 0, some 3900, some 65⟩]) ∧
    log_wake [⟨1, 20, some 0, some 100, some 1⟩] 1 21 3900 =
      [⟨1, 20, some 0, some 100, some 1⟩, ⟨1, 21, none, some 3900, none⟩] :=
  ⟨⟨by decide, by
      have h := (C8_sleep_pairing [] 1 20 21 0 3900 (by decide)).1
      simpa using h⟩,
   by
    have h := (C8_sleep_pairing [⟨1, 20, some 0, some 100, some 1⟩] 1 0 21 0 3900
      (by decide)).2 (by decide)
    simpa using h⟩

end LifeTrack
